import Mathlib

/-!
# ipfs-sync — verification of the synchronization engine

A shallow embedding of the core of the `ipfs-sync` repository
(`db.go`, `main.go`, `fsnotify.go`, `configuration.go`), together with
theorems settling the frozen claims about its natural-language
specification.

Modelling conventions:
* Byte strings (`[]byte`) are lists of naturals (`ByteStr`); Go's
  nil-vs-empty distinction for the content hash is kept via `Option`.
* The leveldb fingerprint store is an association list of raw keys, the
  way `db.go` uses it: a plain key `path ↦ content-hash` and a twin key
  `"ts_" ++ path ↦ timestamp-encoding`.  leveldb's `BytesPrefix`
  iteration is byte-prefix iteration over the keys; for the ASCII keys
  the store uses, byte prefixes and character prefixes agree, so the
  prefix test is modelled on `String.data`.
* Remote (IPFS HTTP API) calls are events in a trace (`Op`); their
  outcomes are oracle inputs, since the daemon's answers are external.
-/

/-- Bytes of a `[]byte` value. -/
abbrev ByteStr := List Nat

/-- Byte-prefix test on keys (Go / leveldb compare keys as byte strings;
on the ASCII keys used here this is the character-prefix test). -/
def strPfx (p s : String) : Bool :=
  p.data.isPrefixOf s.data

/-- The leveldb store of `db.go`, as an association list of raw keys. -/
abbrev Db := List (String × ByteStr)

/-- `DB.Get`: first entry with the given key (leveldb: missing key reports
an error, modelled as `none`). -/
def dbGet (db : Db) (k : String) : Option ByteStr :=
  (db.find? (fun kv => kv.1 == k)).map (·.2)

/-- `DB.Put`: overwrite the value stored under `k`. -/
def dbPut (db : Db) (k : String) (v : ByteStr) : Db :=
  (k, v) :: db.filter (fun kv => !(kv.1 == k))

/-- `FileHash` of `db.go`: a fingerprint record.  `Hash` is the xxhash
content fingerprint (`nil` under the cheap, don't-hash strategy);
`FakeHash` is the (size, mtime) encoding.  Go compares `FakeHash` through
`string(...)`, which identifies nil and empty, so it is a plain list. -/
structure FileHash where
  PathOnDisk : String
  Hash : Option ByteStr
  FakeHash : ByteStr
  deriving DecidableEq, Repr

/-- `FileHash.Update` (db.go:31-52): cross-references the record with the
store.  The content-hash component is read and (when different or absent)
written; then the timestamp component likewise; the reported result is
`hashChanged && tsChanged`.  The `DB == nil` / `fh == nil` early return
(no store configured) is outside this model. -/
def FileHash.Update (fh : FileHash) (db : Db) : Bool × Db :=
  let hashStep : Bool × Db :=
    match fh.Hash with
    | some h =>
      match dbGet db fh.PathOnDisk with
      | some v => if v = h then (false, db) else (true, dbPut db fh.PathOnDisk h)
      | none => (true, dbPut db fh.PathOnDisk h)
    | none => (true, db)
  let tsKey := "ts_" ++ fh.PathOnDisk
  let tsChanged : Bool :=
    match dbGet hashStep.2 tsKey with
    | some v => decide (v ≠ fh.FakeHash)
    | none => true
  let db2 := if tsChanged then dbPut hashStep.2 tsKey fh.FakeHash else hashStep.2
  (hashStep.1 && tsChanged, db2)

/-- `FileHash.Delete` (db.go:55-73): iterate every key of the store that
has `path` as a byte prefix (`util.BytesPrefix`, over the snapshot taken
when the iterator is created) and delete that key together with its
`"ts_" ++ key` twin.  (The receiver's `PathOnDisk`, when the receiver is
non-nil, is the same path the call sites pass, so the model takes the
path directly.) -/
def iterKeys (db : Db) (path : String) : List String :=
  (db.map Prod.fst).filter (fun k => strPfx path k)

/-- The deletion loop of `FileHash.Delete`, over the iterated keys. -/
def FileHash.Delete (path : String) (db : Db) : Db :=
  db.filter (fun kv =>
    decide (kv.1 ∉ iterKeys db path ∧ ∀ k ∈ iterKeys db path, kv.1 ≠ "ts_" ++ k))

/-- A record for path `q` is visible in the store if either of its raw
keys is present (`HashDir` reads both `q` and `"ts_" ++ q`). -/
def hasRecord (db : Db) (q : String) : Bool :=
  (dbGet db q).isSome || (dbGet db ("ts_" ++ q)).isSome

/-- The cheap fingerprint of `GetHashValue` (db.go:101-113, the
`dontHash` branch): sixteen bytes taken from the file's size and
modification time exactly by the shift ladder written in the source —
shifts 0, 8, 16, **32**, 40, 48, 56, **64** (the `>> 24` step is absent
and a `>> 64` step, zero for any value below `2^63`, appears instead).
`size` and `time` are the non-negative `int64` values of `os.Stat`. -/
def fakeHashBytes (size time : Nat) : ByteStr :=
  [size % 256, (size >>> 8) % 256, (size >>> 16) % 256, (size >>> 32) % 256,
   (size >>> 40) % 256, (size >>> 48) % 256, (size >>> 56) % 256, (size >>> 64) % 256,
   time % 256, (time >>> 8) % 256, (time >>> 16) % 256, (time >>> 32) % 256,
   (time >>> 40) % 256, (time >>> 48) % 256, (time >>> 56) % 256, (time >>> 64) % 256]

/-- `GetHashValue(fpath, dontHash=true)`: `none` when the stat fails,
otherwise the encoding of the stat result. -/
def GetHashValueCheap (statResult : Option (Nat × Nat)) : Option ByteStr :=
  statResult.map (fun st => fakeHashBytes st.1 st.2)

/-- Remote (IPFS API / watcher housekeeping) operations the engine
issues, recorded as a trace. -/
inductive Op where
  /-- `IPFSAddFile`: upload the file's bytes (`add` endpoint). -/
  | addBytes (fpath : String)
  /-- `MakeDir`: `files/mkdir` with `parents=true`. -/
  | mkdir (mfsDir : String)
  /-- `RemoveFile`: `files/rm` with `force=true`. -/
  | rmFile (mfsPath : String)
  /-- the `files/cp` request linking the uploaded content id. -/
  | cp (mfsPath : String)
  /-- bad-block recovery (`HandleBadBlockError`): hash-only re-add plus
  `RemoveCID` when the local path is known, `CleanFilestore` when not. -/
  | recover (fpath : String)
  /-- `pin/update` request. -/
  | pinUpdate (fromCid toCid : String)
  /-- `pin/add` request (`Pin`). -/
  | pinAdd (cid : String)
  /-- `UpdatePinEstuary`: the remote pinning service update. -/
  | estuaryUpdate (fromCid toCid : String)
  /-- `Publish`: `name/publish` of a cid under an identity. -/
  | publish (cid keyId : String)
  /-- `watcher.Remove`: unregister a watch. -/
  | unwatch (path : String)
  /-- `Recalculate` + `Update`: recompute and store the fingerprint. -/
  | storeFp (path : String)
  deriving DecidableEq, Repr

/-- Outcome of one `files/cp` attempt, as classified by
`HandleBadBlockError`: success, a recognized dangling/corrupted-reference
error (`failed to get block ...` / `... no such file or directory`), or
any other error. -/
inductive CpRes where
  | ok
  | badBlock
  | otherErr
  deriving DecidableEq, Repr

/-- The MFS parent directory of a target path (`AddFile`'s
`strings.Join(toSplit[:len(toSplit)-1], "/")`). -/
def parentMfs (dst : String) : String :=
  String.intercalate "/" (dst.splitOn "/").dropLast

/-- Requests issued by one frame of `AddFile` (main.go:225-267) up to and
including its `files/cp` attempt: upload the bytes, then (when `makedir`)
create the parent directory, then (when `overwrite`) remove the existing
entry, then link with `files/cp`.  Upload and mkdir are assumed to
succeed (on their failure `AddFile` returns early and no `cp` request is
made). -/
def addFileBaseOps (fr dst : String) (makedir overwrite : Bool) : List Op :=
  [Op.addBytes fr]
    ++ (if makedir then [Op.mkdir (parentMfs dst)] else [])
    ++ (if overwrite then [Op.rmFile dst] else [])
    ++ [Op.cp dst]

/-- The full request trace of `AddFile`, driven by the oracle of
successive `files/cp` outcomes (one per attempt; an exhausted oracle
means every further call succeeds).  A recognized bad-block error
triggers `HandleBadBlockError` (one recovery) and a full recursive
`AddFile` with the same arguments; any other outcome ends the call. -/
def AddFileTrace (fr dst : String) (makedir overwrite : Bool) : List CpRes → List Op
  | [] => addFileBaseOps fr dst makedir overwrite
  | CpRes.badBlock :: rest =>
    addFileBaseOps fr dst makedir overwrite
      ++ (Op.recover fr :: AddFileTrace fr dst makedir overwrite rest)
  | CpRes.ok :: _ => addFileBaseOps fr dst makedir overwrite
  | CpRes.otherErr :: _ => addFileBaseOps fr dst makedir overwrite

/-- Number of recovery attempts in a trace. -/
def recoveryCount (tr : List Op) : Nat :=
  tr.countP (fun op => match op with | Op.recover _ => true | _ => false)

/-- Number of `files/cp` attempts in a trace. -/
def cpCount (tr : List Op) : Nat :=
  tr.countP (fun op => match op with | Op.cp _ => true | _ => false)

/-- Length of the initial run of recognized bad-block errors in a
`files/cp` outcome oracle. -/
def badBlockRunLen : List CpRes → Nat
  | [] => 0
  | CpRes.badBlock :: rest => badBlockRunLen rest + 1
  | CpRes.ok :: _ => 0
  | CpRes.otherErr :: _ => 0

/-- Outcome of one `pin/update` attempt in `UpdatePin`. -/
inductive PinRes where
  | ok
  | badBlock
  | otherErr
  deriving DecidableEq, Repr

/-- Request trace of `UpdatePin` (main.go:473-492), driven by the oracle
of successive `pin/update` outcomes (an exhausted oracle means success).
On a recognized bad-block error it recovers (`HandleBadBlockError` with
an unknown path, i.e. `CleanFilestore`) and calls itself again; on any
other error it falls back to a plain `pin/add` of the new cid. -/
def UpdatePinTrace (fr dst : String) : List PinRes → List Op
  | [] => [Op.pinUpdate fr dst]
  | PinRes.ok :: _ => [Op.pinUpdate fr dst]
  | PinRes.badBlock :: rest => Op.pinUpdate fr dst :: Op.recover "" :: UpdatePinTrace fr dst rest
  | PinRes.otherErr :: _ => [Op.pinUpdate fr dst, Op.pinAdd dst]

/-- `DirKey` (configuration.go) as used by `WatchDog` in main.go:
per-directory configuration plus the managed fields `CID` (last-known
snapshot id) and `MFSPath` (remote mount name). -/
structure DirKey where
  ID : String
  Dir : String
  Nocopy : Bool
  DontHash : Bool
  Pin : Bool
  Estuary : Bool
  CID : String
  MFSPath : String
  deriving DecidableEq, Repr

/-- One directory's step of the steady-state loop of `WatchDog`
(main.go:757-775), given the result `fCID` of `GetFileCID(dk.MFSPath)`
and the `pin/update` outcome oracle: when `fCID` is non-empty and
differs from the last-known cid, update the local pin (when `Pin`),
update the remote pinning service (when `Estuary`), publish the new cid
under the directory's identity and record it; otherwise do nothing. -/
def watchDogStep (dk : DirKey) (fCID : String) (pinRes : List PinRes) :
    DirKey × List Op :=
  if 0 < fCID.length ∧ fCID ≠ dk.CID then
    ({ dk with CID := fCID },
      (if dk.Pin then UpdatePinTrace dk.CID fCID pinRes else [])
        ++ (if dk.Estuary then [Op.estuaryUpdate dk.CID fCID] else [])
        ++ [Op.publish fCID dk.ID])
  else (dk, [])

/-- Number of publishes in a trace. -/
def publishCount (tr : List Op) : Nat :=
  tr.countP (fun op => match op with | Op.publish _ _ => true | _ => false)

/-- Number of `pin/update` requests in a trace. -/
def pinUpdateCount (tr : List Op) : Nat :=
  tr.countP (fun op => match op with | Op.pinUpdate _ _ => true | _ => false)

/-- One full pass of the steady-state loop over all directories, the
oracle supplying per directory the `GetFileCID` result and the
`pin/update` outcomes (an exhausted oracle means `GetFileCID` keeps
returning `""`). -/
def watchDogPass : List DirKey → List (String × List PinRes) → List DirKey × List Op
  | [], _ => ([], [])
  | dk :: rest, oracle =>
    let o := oracle.headD ("", [])
    let step := watchDogStep dk o.1 o.2
    let passRest := watchDogPass rest oracle.tail
    (step.1 :: passRest.1, step.2 ++ passRest.2)

/-- The `addFile` closure of `watchDir` (fsnotify.go:57-87): derive the
parent directory, consult the per-watcher `localDirs` cache to decide
whether to create it (and record it), call `AddFile` on the mapped MFS
path, then — when a store is configured — recompute and store the
fingerprint (this happens whether or not `AddFile` failed; its error is
only logged).  On Linux `os.PathSeparator` is `/`, so the separator
replacement is the identity.  Returns the updated cache and the trace. -/
def watchAddFile (dir dirName : String) (localDirs : List String)
    (fname : String) (overwrite : Bool) (cpRes : List CpRes)
    (dbEnabled : Bool) : List String × List Op :=
  let parentDir := String.intercalate "/" (fname.splitOn "/").dropLast
  let makeDir := !(localDirs.contains parentDir)
  let localDirs' := if makeDir then parentDir :: localDirs else localDirs
  let mfsPath := fname.drop dir.length
  (localDirs',
    AddFileTrace fname (dirName ++ "/" ++ mfsPath) makeDir overwrite cpRes
      ++ (if dbEnabled then [Op.storeFp fname] else []))

/-- A filesystem subtree, for modelling the `filepath.WalkDir` walks. -/
inductive FsNode where
  | file (name : String)
  | dir (name : String) (children : List FsNode)

/-- Name of a node. -/
def FsNode.name : FsNode → String
  | FsNode.file n => n
  | FsNode.dir n _ => n

/-- Does a name begin with the hidden marker (Go: `name[0] == '.'` after
a non-emptiness check)? -/
def hiddenName (n : String) : Bool :=
  strPfx "." n

mutual

/-- The `filepath.WalkDir(event.Name, addDir)` walk (fsnotify.go:89-109)
over a subtree, collecting the paths passed to `addFile(path, false)`:
directories whose basename begins with `.` are skipped (with their whole
subtree) when ignore-hidden is on, every other entry that is a file gets
`addFile` — with no hidden-name or ignore-suffix test for files.
`pfx` is the path of the parent, with a trailing `/`. -/
def addDirWalk (ih : Bool) (pfx : String) : FsNode → List String
  | FsNode.file n => [pfx ++ n]
  | FsNode.dir n children =>
    if ih && hiddenName n then []
    else addDirWalkList ih (pfx ++ n ++ "/") children

/-- `addDirWalk` over a list of children, in order. -/
def addDirWalkList (ih : Bool) (pfx : String) : List FsNode → List String
  | [] => []
  | c :: cs => addDirWalk ih pfx c ++ addDirWalkList ih pfx cs

end

mutual

/-- The file-collecting walk of `filePathWalkDir` (main.go:101-122) over
a subtree: hidden directories are skipped with their subtree, hidden
files are skipped, every other file is collected (the walk root itself
is never skipped: its path carries a trailing separator, so the
basename the code examines is empty). -/
def walkCollect (ih : Bool) (pfx : String) : FsNode → List String
  | FsNode.file n => if ih && hiddenName n then [] else [pfx ++ n]
  | FsNode.dir n children =>
    if ih && hiddenName n then []
    else walkCollectList ih (pfx ++ n ++ "/") children

/-- `walkCollect` over a list of children, in order. -/
def walkCollectList (ih : Bool) (pfx : String) : List FsNode → List String
  | [] => []
  | c :: cs => walkCollect ih pfx c ++ walkCollectList ih pfx cs

end

/-- `filePathWalkDir(root)`: the walk starts at the configured root
(whose own name is exempt from the hidden test) and descends into its
entries. -/
def filePathWalkDir (ih : Bool) (root : String) (entries : List FsNode) : List String :=
  walkCollectList ih root entries

/-- `strings.Split` on a one-character separator, over the character
list of the string (Go splits on bytes; these paths are ASCII). -/
def splitOnChar (c : Char) : List Char → List (List Char)
  | [] => [[]]
  | x :: xs =>
    match splitOnChar c xs with
    | [] => if x == c then [[], []] else [[x]]
    | r :: rs => if x == c then [] :: r :: rs else (x :: r) :: rs

/-- Does a split segment begin with the hidden marker? -/
def segHidden : List Char → Bool
  | [] => false
  | ch :: _ => ch == '.'

/-- The hidden test applied to `event.Name` in the watcher's event loop
(fsnotify.go:134-145): only the final path segment is examined (or the
one before it when the final segment is empty). -/
def eventHidden (name : String) : Bool :=
  let parts := splitOnChar '/' name.data
  let last := parts.getLastD []
  if 0 < last.length then segHidden last
  else segHidden (parts.dropLast.getLastD [])

/-- The ignore-suffix test of the event loop (fsnotify.go:146-149): the
segment after the final `.` is looked up in the ignore list. -/
def extIgnored (ignore : List String) (name : String) : Bool :=
  ignore.contains (String.mk ((splitOnChar '.' name.data).getLastD []))

/-- Processing of one `fsnotify.Create` event (fsnotify.go:150-161),
returning the local paths for which a sync intent (`addFile`) is
produced.  The event is dropped when the hidden test (under
ignore-hidden) or the suffix test fires on `event.Name`; otherwise a
plain file gets an `addFile(event.Name, true)` intent, and a directory
is walked: watches added (`watchThis`), then `addDir` produces intents
for the files inside.  `parentPfx` is `event.Name` minus its final
segment, with the trailing `/`; `node` is the filesystem entry the event
names. -/
def processCreateEvent (ih : Bool) (ignore : List String)
    (parentPfx : String) (node : FsNode) : List String :=
  let name := parentPfx ++ node.name
  if ih && eventHidden name then []
  else if extIgnored ignore name then []
  else
    match node with
    | FsNode.file _ => [name]
    | FsNode.dir _ _ => addDirWalk ih parentPfx node

/-- Processing of one `fsnotify.Remove`/`fsnotify.Rename` event
(fsnotify.go:164-189), after the event-loop ignore tests: re-stat the
path; when it still exists, do nothing; when it is gone, unregister its
watch, drop it from the `localDirs` cache, issue the remote `files/rm`
at the mapped path and delete the store's records with the path as
prefix.  Returns (localDirs, db) and the trace. -/
def processRemoveEvent (dir dirName : String) (localDirs : List String)
    (db : Db) (name : String) (statExists : Bool) (dbEnabled : Bool) :
    (List String × Db) × List Op :=
  if statExists then ((localDirs, db), [])
  else
    let localDirs' := if localDirs.contains name then localDirs.erase name else localDirs
    let fpath := name.drop dir.length
    let db' := if dbEnabled then FileHash.Delete name db else db
    ((localDirs', db'),
      [Op.unwatch name, Op.rmFile (dirName ++ "/" ++ fpath)])

/-- Per-directory configuration as read at startup (`DirKey`'s config
fields that `ProcessFlags` validates). -/
structure DirCfg where
  ID : String
  Dir : String
  deriving DecidableEq, Repr

/-- The fatal startup-validation failures of `ProcessFlags`
(configuration.go:174-250) and `InitDB` (db.go:146-162): each is a
`log.Fatalln`, i.e. an immediate process exit. -/
inductive StartupError where
  | emptyDirs
  | emptyDirPath (id : String)
  | dbOpenFailed
  | endpointUnreachable
  deriving DecidableEq, Repr

/-- Validation of the `Dir` entries: an empty path is fatal; otherwise a
missing trailing `/` is appended. -/
def checkDirs : List DirCfg → Except StartupError (List DirCfg)
  | [] => Except.ok []
  | dk :: rest =>
    if dk.Dir = "" then Except.error (StartupError.emptyDirPath dk.ID)
    else do
      let rest' ← checkDirs rest
      Except.ok ({ dk with
        Dir := if dk.Dir.data.getLastD ' ' == '/' then dk.Dir else dk.Dir ++ "/" } :: rest')

/-- The validation sequence of `ProcessFlags`: an empty directory list is
fatal; each directory entry is checked; when a durable store is
configured (`DBPath ≠ ""`), a failure to open it (`InitDB`) is fatal;
finally an unreachable endpoint (the `version` probe) is fatal.
`dbOpenOk` and `endpointOk` are oracle inputs for the two external
operations. -/
def ProcessFlagsChecks (dirKeys : List DirCfg) (dbPath : String)
    (dbOpenOk endpointOk : Bool) : Except StartupError (List DirCfg) :=
  if dirKeys.isEmpty then Except.error StartupError.emptyDirs
  else do
    let dirs ← checkDirs dirKeys
    if dbPath ≠ "" && !dbOpenOk then Except.error StartupError.dbOpenFailed
    else if !endpointOk then Except.error StartupError.endpointUnreachable
    else Except.ok dirs

/-! ## Store lemmas -/

theorem strPfx_iff (p s : String) : strPfx p s = true ↔ p.data <+: s.data := by
  simp [strPfx]

theorem ts_data (s : String) : ("ts_" ++ s).data = 't' :: 's' :: '_' :: s.data := by
  simp [String.data_append]

theorem slash_pfx_ts_false (s : String) : strPfx "/" ("ts_" ++ s) = false := by
  rw [← Bool.not_eq_true, strPfx_iff, ts_data]
  intro h
  rcases h with ⟨t, ht⟩
  simp [show ("/" : String).data = ['/'] from rfl] at ht

theorem slash_ne_ts {q s : String} (hq : strPfx "/" q = true) : q ≠ "ts_" ++ s := by
  intro h
  subst h
  rw [slash_pfx_ts_false] at hq
  exact Bool.noConfusion hq

theorem pfx_slash_head {p : String} (hp : strPfx "/" p = true) :
    ∃ t, p.data = '/' :: t := by
  rw [strPfx_iff] at hp
  rcases hp with ⟨t, ht⟩
  exact ⟨t, ht.symm⟩

theorem slash_pfx_not_ts {p s : String} (hp : strPfx "/" p = true) :
    strPfx p ("ts_" ++ s) = false := by
  rcases pfx_slash_head hp with ⟨t, ht⟩
  rw [← Bool.not_eq_true, strPfx_iff, ts_data, ht]
  intro h
  rw [List.cons_prefix_cons] at h
  exact absurd h.1 (by decide)

theorem ts_append_inj {a b : String} (h : "ts_" ++ a = "ts_" ++ b) : a = b := by
  have hd : ("ts_" ++ a).data = ("ts_" ++ b).data := by rw [h]
  rw [ts_data, ts_data] at hd
  simp at hd
  exact String.ext hd

theorem ts_ne_self (p : String) : "ts_" ++ p ≠ p := by
  intro h
  have hd : ("ts_" ++ p).data = p.data := by rw [h]
  rw [ts_data] at hd
  have := congrArg List.length hd
  simp at this
  omega

theorem find?_filter_of_keep {α} (l : List α) (p q : α → Bool)
    (h : ∀ a, p a = true → q a = true) : (l.filter q).find? p = l.find? p := by
  induction l with
  | nil => rfl
  | cons a l ih =>
    by_cases hq : q a = true
    · rw [List.filter_cons_of_pos hq]
      by_cases hp : p a = true
      · rw [List.find?_cons_of_pos _ hp, List.find?_cons_of_pos _ hp]
      · rw [List.find?_cons_of_neg _ (by simp [hp]), List.find?_cons_of_neg _ (by simp [hp]), ih]
    · rw [List.filter_cons_of_neg (by simp [hq])]
      have hp : ¬ p a = true := fun hpa => hq (h a hpa)
      rw [List.find?_cons_of_neg _ (by simp [hp]), ih]

theorem mem_keys_of_mem {db : Db} {kv : String × ByteStr} (h : kv ∈ db) :
    kv.1 ∈ db.map Prod.fst :=
  List.mem_map.mpr ⟨kv, h, rfl⟩

theorem mem_iterKeys {db : Db} {p k : String} :
    k ∈ iterKeys db p ↔ k ∈ db.map Prod.fst ∧ strPfx p k = true := by
  simp [iterKeys]

/-- Deletion removes every plain key that has `path` as a prefix. -/
theorem dbGet_Delete_of_pfx (db : Db) (p q : String) (h : strPfx p q = true) :
    dbGet (FileHash.Delete p db) q = none := by
  have hfind : (FileHash.Delete p db).find? (fun kv => kv.1 == q) = none := by
    rw [FileHash.Delete, List.find?_eq_none]
    intro kv hkv
    rw [List.mem_filter] at hkv
    obtain ⟨hmem, hcond⟩ := hkv
    rw [decide_eq_true_eq] at hcond
    obtain ⟨hnotin, _⟩ := hcond
    simp only [beq_iff_eq]
    intro hkq
    apply hnotin
    rw [mem_iterKeys]
    refine ⟨mem_keys_of_mem hmem, ?_⟩
    rw [hkq]
    exact h
  unfold dbGet
  rw [hfind]
  rfl

/-- Deletion removes the `"ts_"` twin of every prefixed **plain** key
that is present: the loop deletes `"ts_" ++ k` exactly for the iterated
plain keys `k`. -/
theorem dbGet_Delete_ts_none_of_mem (db : Db) (p q : String)
    (hpq : strPfx p q = true) (hqk : q ∈ db.map Prod.fst) :
    dbGet (FileHash.Delete p db) ("ts_" ++ q) = none := by
  have hfind : (FileHash.Delete p db).find? (fun kv => kv.1 == ("ts_" ++ q)) = none := by
    rw [FileHash.Delete, List.find?_eq_none]
    intro kv hkv
    rw [List.mem_filter] at hkv
    obtain ⟨hmem, hcond⟩ := hkv
    rw [decide_eq_true_eq] at hcond
    obtain ⟨_, hall⟩ := hcond
    simp only [beq_iff_eq]
    intro hkq
    refine hall q ?_ hkq
    rw [mem_iterKeys]
    exact ⟨hqk, hpq⟩
  unfold dbGet
  rw [hfind]
  rfl

/-- A `"ts_"` twin whose plain key is absent from the store — the shape
every record has under the cheap, don't-hash strategy — is never
deleted: the iteration ranges over plain keys only, and no plain path
key (they start with `/`) is a byte prefix of a `"ts_..."` key. -/
theorem dbGet_Delete_ts_keep_of_not_mem (db : Db) (p q : String)
    (hp : strPfx "/" p = true) (hqk : q ∉ db.map Prod.fst) :
    dbGet (FileHash.Delete p db) ("ts_" ++ q) = dbGet db ("ts_" ++ q) := by
  rw [dbGet, dbGet, FileHash.Delete]
  congr 1
  apply find?_filter_of_keep
  intro kv hkv
  rw [beq_iff_eq] at hkv
  rw [decide_eq_true_eq]
  constructor
  · intro hin
    rw [mem_iterKeys] at hin
    have hpk : strPfx p kv.1 = true := hin.2
    rw [hkv, slash_pfx_not_ts hp] at hpk
    exact Bool.noConfusion hpk
  · intro k hkin
    rw [hkv]
    intro heq
    have hqeq : q = k := ts_append_inj heq
    subst hqeq
    rw [mem_iterKeys] at hkin
    exact hqk hkin.1

/-- Deletion leaves the plain key of any non-prefixed path unchanged. -/
theorem dbGet_Delete_not_pfx_plain (db : Db) (p q : String)
    (hq : strPfx "/" q = true) (h : strPfx p q = false) :
    dbGet (FileHash.Delete p db) q = dbGet db q := by
  rw [dbGet, dbGet, FileHash.Delete]
  congr 1
  apply find?_filter_of_keep
  intro kv hkv
  rw [beq_iff_eq] at hkv
  rw [decide_eq_true_eq]
  constructor
  · intro hin
    rw [mem_iterKeys] at hin
    have hpk : strPfx p kv.1 = true := hin.2
    rw [hkv, h] at hpk
    exact Bool.noConfusion hpk
  · intro k _
    rw [hkv]
    exact slash_ne_ts hq

/-- Deletion leaves the `"ts_"` twin of any non-prefixed path unchanged. -/
theorem dbGet_Delete_not_pfx_ts (db : Db) (p q : String)
    (hp : strPfx "/" p = true) (h : strPfx p q = false) :
    dbGet (FileHash.Delete p db) ("ts_" ++ q) = dbGet db ("ts_" ++ q) := by
  rw [dbGet, dbGet, FileHash.Delete]
  congr 1
  apply find?_filter_of_keep
  intro kv hkv
  rw [beq_iff_eq] at hkv
  rw [decide_eq_true_eq]
  constructor
  · intro hin
    rw [mem_iterKeys] at hin
    have hpk : strPfx p kv.1 = true := hin.2
    rw [hkv, slash_pfx_not_ts hp] at hpk
    exact Bool.noConfusion hpk
  · intro k hkin
    rw [hkv]
    intro heq
    have hqk : q = k := ts_append_inj heq
    subst hqk
    rw [mem_iterKeys] at hkin
    rw [hkin.2] at h
    exact Bool.noConfusion h

theorem dbGet_dbPut_self (db : Db) (k : String) (v : ByteStr) :
    dbGet (dbPut db k v) k = some v := by
  simp [dbGet, dbPut, List.find?]

theorem dbGet_dbPut_ne (db : Db) (k : String) (v : ByteStr) (k' : String)
    (h : k' ≠ k) : dbGet (dbPut db k v) k' = dbGet db k' := by
  rw [dbGet, dbGet, dbPut]
  rw [List.find?_cons_of_neg _ (by simp [Ne.symm h])]
  congr 1
  apply find?_filter_of_keep
  intro kv hkv
  rw [beq_iff_eq] at hkv
  rw [hkv]
  simp [h]

/-! ## Trace-counting lemmas -/

theorem string_ne_empty_length {s : String} (h : s ≠ "") : 0 < s.length := by
  cases s with
  | mk d =>
    cases d with
    | nil => exact absurd rfl h
    | cons c cs => simp [String.length]

theorem UpdatePinTrace_nil (fr dst : String) :
    UpdatePinTrace fr dst [] = [Op.pinUpdate fr dst] := rfl

theorem recoveryCount_base (fr dst : String) (md ov : Bool) :
    recoveryCount (addFileBaseOps fr dst md ov) = 0 := by
  cases md <;> cases ov <;>
    simp [recoveryCount, addFileBaseOps, List.countP_cons, List.countP_append]

theorem cpCount_base (fr dst : String) (md ov : Bool) :
    cpCount (addFileBaseOps fr dst md ov) = 1 := by
  cases md <;> cases ov <;>
    simp [cpCount, addFileBaseOps, List.countP_cons, List.countP_append]

theorem recoveryCount_append (l1 l2 : List Op) :
    recoveryCount (l1 ++ l2) = recoveryCount l1 + recoveryCount l2 :=
  List.countP_append _ _ _

theorem cpCount_append (l1 l2 : List Op) :
    cpCount (l1 ++ l2) = cpCount l1 + cpCount l2 :=
  List.countP_append _ _ _

theorem recoveryCount_recover_cons (f : String) (l : List Op) :
    recoveryCount (Op.recover f :: l) = recoveryCount l + 1 := by
  simp [recoveryCount, List.countP_cons]

theorem cpCount_recover_cons (f : String) (l : List Op) :
    cpCount (Op.recover f :: l) = cpCount l := by
  simp [cpCount, List.countP_cons]

/-! ## Claims -/

/-- Claim C1: in a steady-state pass over a watched directory whose
last-known snapshot id is `X`, if reading the remote mount's current
snapshot id returns `Y ≠ X` (a read that fails returns `""`, so a
returned snapshot id is non-empty), then exactly one publish of `Y`
under the directory's identity occurs, exactly one pin update from `X`
to `Y` occurs when the directory is pin-enabled and none when it is not,
and the last-known snapshot id becomes `Y`.  The `pin/update` call is
taken to succeed (the empty oracle), as in an error-free steady state. -/
theorem claim_C1 (dk : DirKey) (fCID : String)
    (hne : fCID ≠ dk.CID) (hnz : fCID ≠ "") :
    (watchDogStep dk fCID []).1.CID = fCID ∧
    publishCount (watchDogStep dk fCID []).2 = 1 ∧
    Op.publish fCID dk.ID ∈ (watchDogStep dk fCID []).2 ∧
    pinUpdateCount (watchDogStep dk fCID []).2 = (if dk.Pin then 1 else 0) ∧
    (dk.Pin = true → Op.pinUpdate dk.CID fCID ∈ (watchDogStep dk fCID []).2) := by
  have hlen : 0 < fCID.length := string_ne_empty_length hnz
  rw [watchDogStep, if_pos ⟨hlen, hne⟩]
  cases hP : dk.Pin <;> cases hE : dk.Estuary <;>
    simp [publishCount, pinUpdateCount, UpdatePinTrace_nil, List.countP_cons,
      List.countP_append]

/-- Witness for C1 at a concrete pin-enabled directory with `X = "X"`,
`Y = "Y"`. -/
theorem claim_C1_witness :
    (watchDogStep ⟨"id1", "/r/", false, false, true, false, "X", "r"⟩ "Y" []).1.CID = "Y" ∧
    publishCount (watchDogStep ⟨"id1", "/r/", false, false, true, false, "X", "r"⟩ "Y" []).2 = 1 ∧
    Op.publish "Y" "id1" ∈ (watchDogStep ⟨"id1", "/r/", false, false, true, false, "X", "r"⟩ "Y" []).2 ∧
    pinUpdateCount (watchDogStep ⟨"id1", "/r/", false, false, true, false, "X", "r"⟩ "Y" []).2 =
      (if (true : Bool) then 1 else 0) ∧
    ((true : Bool) = true →
      Op.pinUpdate "X" "Y" ∈ (watchDogStep ⟨"id1", "/r/", false, false, true, false, "X", "r"⟩ "Y" []).2) :=
  claim_C1 ⟨"id1", "/r/", false, false, true, false, "X", "r"⟩ "Y" (by decide) (by decide)

/-- Claim C10: in a steady-state pass, a directory for which the remote
mount's current snapshot id reads back as the empty string gets no
publish, no pin update, and an unchanged last-known snapshot id, even
when the stored id is non-empty. -/
theorem claim_C10 (dk : DirKey) (pinRes : List PinRes) :
    watchDogStep dk "" pinRes = (dk, []) := by
  simp [watchDogStep]

/-- Claim C4 counterexample: with the recognized bad-block error
returned by the first two `files/cp` attempts of an `AddFile` call, the
trace holds two recovery attempts — the recursion retries again after a
retry that fails with the same recognized error, so recovery is not
bounded by one attempt per call site. -/
theorem claim_C4_counterexample :
    ¬ recoveryCount (AddFileTrace "/r/s/f" "r/s/f" false false
        [CpRes.badBlock, CpRes.badBlock, CpRes.ok]) ≤ 1 := by
  decide

/-- Claim C4 (amended): each recognized dangling-reference error on the
linking call triggers one recovery attempt followed by a full retry of
the operation, and this repeats as long as the retried call keeps
failing with a recognized error: the number of recovery attempts equals
the length of the initial run of recognized errors (unbounded in
general), and the operation is attempted once more than that. -/
theorem claim_C4_amended (fr dst : String) (makedir overwrite : Bool) (res : List CpRes) :
    recoveryCount (AddFileTrace fr dst makedir overwrite res) = badBlockRunLen res ∧
    cpCount (AddFileTrace fr dst makedir overwrite res) = badBlockRunLen res + 1 := by
  induction res with
  | nil =>
    rw [AddFileTrace]
    exact ⟨recoveryCount_base fr dst makedir overwrite,
           by rw [cpCount_base]; simp [badBlockRunLen]⟩
  | cons r rest ih =>
    cases r with
    | ok =>
      rw [AddFileTrace]
      simp only [recoveryCount_base, cpCount_base]
      simp [badBlockRunLen]
    | otherErr =>
      rw [AddFileTrace]
      simp only [recoveryCount_base, cpCount_base]
      simp [badBlockRunLen]
    | badBlock =>
      rw [AddFileTrace]
      simp only [recoveryCount_append, cpCount_append, recoveryCount_base, cpCount_base,
        recoveryCount_recover_cons, cpCount_recover_cons, badBlockRunLen, ih]
      omega

/-- Claim C9: the cheap fingerprint is fixed-width and a function of
(size, mtime), but it is **not** injective on that pair: the shift
ladder in `GetHashValue` skips `>> 24` (writing `>> 32, ..., >> 56,
>> 64` instead of `>> 24, ..., >> 56`), so bits 24–31 of both the size
and the mtime never reach the encoding — a 0-byte file and a
16777216-byte (2^24) file with equal mtimes receive byte-equal cheap
fingerprints, and likewise two mtimes 2^24 seconds apart. -/
theorem claim_C9_bug :
    fakeHashBytes 16777216 0 = fakeHashBytes 0 0 ∧
    fakeHashBytes 3 16777216 = fakeHashBytes 3 0 ∧
    (16777216 : Nat) ≠ 0 ∧ (fakeHashBytes 16777216 0).length = 16 := by
  decide

/-- A concrete store holding content-hash-mode records for `/a/b`,
`/a/bc`, `/a/b/c` and an unrelated `/x`, each with its content-hash and
timestamp keys. -/
def dbC2 : Db := [("/a/b", [1]), ("ts_/a/b", [2]), ("/a/bc", [3]),
  ("ts_/a/bc", [4]), ("/a/b/c", [7]), ("ts_/a/b/c", [8]),
  ("/x", [5]), ("ts_/x", [6])]

/-- The same directory as stored under the cheap, don't-hash strategy:
`Update` writes only the `"ts_"` key there (db.go:37-45 writes the plain
key only when `fh.Hash != nil`), so the records consist of timestamp
keys alone. -/
def dbC2cheap : Db := [("ts_/a/b", [2]), ("ts_/a/b/c", [6])]

/-- Claim C2 counterexample, refuting the claim in both directions.
On a content-hash-mode store, `deletePrefix("/a/b")` deletes by raw byte
prefix (`util.BytesPrefix`), so the record for `/a/bc` — which the claim
says is left unchanged — is removed as well.  On a cheap-strategy store,
whose records are timestamp keys alone, the deletion loop — which
iterates plain keys only — removes nothing, so the record for `/a/b`
itself survives, though the claim says the store holds no record for it
afterwards. -/
theorem claim_C2_counterexample :
    hasRecord dbC2 "/a/bc" = true ∧
    hasRecord (FileHash.Delete "/a/b" dbC2) "/a/bc" = false ∧
    hasRecord dbC2cheap "/a/b" = true ∧
    FileHash.Delete "/a/b" dbC2cheap = dbC2cheap ∧
    hasRecord (FileHash.Delete "/a/b" dbC2cheap) "/a/b" = true := by
  decide

/-- Claim C2 (amended), over **every** store state, for an absolute
path `p`: `deletePrefix(p)` removes exactly the keys reachable through a
plain key with `p` as a raw byte prefix — every plain key extending `p`
byte-wise is removed (this covers `p` itself, `p/…` extensions, **and**
same-separator-level extensions such as `/a/bc` for `p = "/a/b"`), and
the record of every such present plain key disappears entirely, its
timestamp twin included.  A timestamp key whose plain partner is absent
— the shape of every record under the cheap, don't-hash strategy — is
never removed, and both keys of every path that does not start with `p`
are unchanged. -/
theorem claim_C2_amended (db : Db) (p : String) (hp : strPfx "/" p = true) :
    (∀ q, strPfx p q = true → dbGet (FileHash.Delete p db) q = none) ∧
    (∀ q, strPfx p q = true → q ∈ db.map Prod.fst →
        hasRecord (FileHash.Delete p db) q = false) ∧
    (∀ q, q ∉ db.map Prod.fst →
        dbGet (FileHash.Delete p db) ("ts_" ++ q) = dbGet db ("ts_" ++ q)) ∧
    (∀ q, strPfx "/" q = true → strPfx p q = false →
        dbGet (FileHash.Delete p db) q = dbGet db q ∧
        dbGet (FileHash.Delete p db) ("ts_" ++ q) = dbGet db ("ts_" ++ q)) := by
  refine ⟨fun q hpq => dbGet_Delete_of_pfx db p q hpq, ?_,
          fun q hqk => dbGet_Delete_ts_keep_of_not_mem db p q hp hqk, ?_⟩
  · intro q hpq hqk
    rw [hasRecord, dbGet_Delete_of_pfx db p q hpq,
      dbGet_Delete_ts_none_of_mem db p q hpq hqk]
    rfl
  · intro q hq h
    exact ⟨dbGet_Delete_not_pfx_plain db p q hq h, dbGet_Delete_not_pfx_ts db p q hp h⟩

/-- Witness for the amended C2 on the concrete stores: `/a/b` and
`/a/b/c` lose their records, `/x` keeps its entry, and on the
cheap-strategy store the timestamp-only record of `/a/b/c` survives. -/
theorem claim_C2_amended_witness :
    hasRecord (FileHash.Delete "/a/b" dbC2) "/a/b" = false ∧
    hasRecord (FileHash.Delete "/a/b" dbC2) "/a/b/c" = false ∧
    dbGet (FileHash.Delete "/a/b" dbC2) "/x" = dbGet dbC2 "/x" ∧
    dbGet (FileHash.Delete "/a/b" dbC2cheap) ("ts_" ++ "/a/b/c") =
      dbGet dbC2cheap ("ts_" ++ "/a/b/c") := by
  refine ⟨(claim_C2_amended dbC2 "/a/b" (by decide)).2.1 "/a/b" (by decide) (by decide),
          (claim_C2_amended dbC2 "/a/b" (by decide)).2.1 "/a/b/c" (by decide) (by decide),
          ((claim_C2_amended dbC2 "/a/b" (by decide)).2.2.2 "/x" (by decide) (by decide)).1,
          (claim_C2_amended dbC2cheap "/a/b" (by decide)).2.2.1 "/a/b/c" (by decide)⟩

/-- Spec-side test of the content-hash component of a record against the
store: changed when absent from the record (don't-hash mode) and when
the stored value differs or is missing. -/
def hashDiffersB (fh : FileHash) (db : Db) : Bool :=
  match fh.Hash with
  | none => true
  | some h => decide (dbGet db fh.PathOnDisk ≠ some h)

/-- Spec-side test of the cheap (timestamp) component of a record
against the store: changed when the stored value differs or is
missing. -/
def tsDiffersB (fh : FileHash) (db : Db) : Bool :=
  decide (dbGet db ("ts_" ++ fh.PathOnDisk) ≠ some fh.FakeHash)

/-- Claim C3 counterexample: a record whose content hash equals the
stored one but whose cheap fingerprint differs (a touched, unmodified
file).  `Update` reports "unchanged" (`false`) — the claim requires
`true`, since the new fingerprint differs from the stored one — yet it
writes the new cheap fingerprint to the store, so returning `false` does
not coincide with performing no write. -/
theorem claim_C3_counterexample :
    (FileHash.Update ⟨"/f", some [1], [2]⟩ [("/f", [1]), ("ts_/f", [3])]).1 = false ∧
    dbGet (FileHash.Update ⟨"/f", some [1], [2]⟩ [("/f", [1]), ("ts_/f", [3])]).2 "ts_/f" = some [2] ∧
    dbGet [("/f", [1]), ("ts_/f", [3])] "ts_/f" = some [3] := by
  decide

/-- The reported result of `Update` is the conjunction of the two
component tests. -/
theorem update_fst (fh : FileHash) (db : Db) :
    (FileHash.Update fh db).1 = (hashDiffersB fh db && tsDiffersB fh db) := by
  obtain ⟨path, oh, fake⟩ := fh
  cases oh with
  | none =>
    cases hT : dbGet db ("ts_" ++ path) with
    | none => simp [FileHash.Update, hashDiffersB, tsDiffersB, hT]
    | some v => simp [FileHash.Update, hashDiffersB, tsDiffersB, hT]
  | some h =>
    cases hG : dbGet db path with
    | some v =>
      by_cases hvh : v = h
      · subst hvh
        cases hT : dbGet db ("ts_" ++ path) with
        | none => simp [FileHash.Update, hashDiffersB, tsDiffersB, hG, hT]
        | some w => simp [FileHash.Update, hashDiffersB, tsDiffersB, hG, hT]
      · have hts : dbGet (dbPut db path h) ("ts_" ++ path) = dbGet db ("ts_" ++ path) :=
          dbGet_dbPut_ne db path h _ (ts_ne_self path)
        cases hT : dbGet db ("ts_" ++ path) with
        | none => simp [FileHash.Update, hashDiffersB, tsDiffersB, hG, hT, hvh, hts]
        | some w => simp [FileHash.Update, hashDiffersB, tsDiffersB, hG, hT, hvh, hts]
    | none =>
      have hts : dbGet (dbPut db path h) ("ts_" ++ path) = dbGet db ("ts_" ++ path) :=
        dbGet_dbPut_ne db path h _ (ts_ne_self path)
      cases hT : dbGet db ("ts_" ++ path) with
      | none => simp [FileHash.Update, hashDiffersB, tsDiffersB, hG, hT, hts]
      | some w => simp [FileHash.Update, hashDiffersB, tsDiffersB, hG, hT, hts]

/-- With both components equal to the stored ones, `Update` is a
complete no-op. -/
theorem update_noop (fh : FileHash) (db : Db) (h1 : hashDiffersB fh db = false)
    (h2 : tsDiffersB fh db = false) : FileHash.Update fh db = (false, db) := by
  obtain ⟨path, oh, fake⟩ := fh
  cases oh with
  | none => simp [hashDiffersB] at h1
  | some h =>
    cases hG : dbGet db path with
    | some v =>
      by_cases hvh : v = h
      · subst hvh
        simp only [tsDiffersB, decide_eq_false_iff_not, not_not] at h2
        simp [FileHash.Update, hG, h2]
      · simp [hashDiffersB, hG, hvh] at h1
    | none => simp [hashDiffersB, hG] at h1

theorem update_ts_write (fh : FileHash) (db : Db) (htd : tsDiffersB fh db = true) :
    dbGet (FileHash.Update fh db).2 ("ts_" ++ fh.PathOnDisk) = some fh.FakeHash := by
  obtain ⟨path, oh, fake⟩ := fh
  simp only [tsDiffersB, decide_eq_true_eq] at htd
  cases oh with
  | none =>
    cases hT : dbGet db ("ts_" ++ path) with
    | none => simp [FileHash.Update, hT, dbGet_dbPut_self]
    | some v =>
      have hv : v ≠ fake := by
        intro hv
        rw [hT, hv] at htd
        exact htd rfl
      simp [FileHash.Update, hT, hv, dbGet_dbPut_self]
  | some h =>
    cases hG : dbGet db path with
    | some v =>
      by_cases hvh : v = h
      · subst hvh
        cases hT : dbGet db ("ts_" ++ path) with
        | none => simp [FileHash.Update, hG, hT, dbGet_dbPut_self]
        | some w =>
          have hw : w ≠ fake := by
            intro hw
            rw [hT, hw] at htd
            exact htd rfl
          simp [FileHash.Update, hG, hT, hw, dbGet_dbPut_self]
      · have hts : dbGet (dbPut db path h) ("ts_" ++ path) = dbGet db ("ts_" ++ path) :=
          dbGet_dbPut_ne db path h _ (ts_ne_self path)
        cases hT : dbGet db ("ts_" ++ path) with
        | none => simp [FileHash.Update, hG, hT, hvh, hts, dbGet_dbPut_self]
        | some w =>
          have hw : w ≠ fake := by
            intro hw
            rw [hT, hw] at htd
            exact htd rfl
          simp [FileHash.Update, hG, hT, hvh, hts, hw, dbGet_dbPut_self]
    | none =>
      have hts : dbGet (dbPut db path h) ("ts_" ++ path) = dbGet db ("ts_" ++ path) :=
        dbGet_dbPut_ne db path h _ (ts_ne_self path)
      cases hT : dbGet db ("ts_" ++ path) with
      | none => simp [FileHash.Update, hG, hT, hts, dbGet_dbPut_self]
      | some w =>
        have hw : w ≠ fake := by
          intro hw
          rw [hT, hw] at htd
          exact htd rfl
        simp [FileHash.Update, hG, hT, hts, hw, dbGet_dbPut_self]

theorem update_ts_keep (fh : FileHash) (db : Db) (htd : tsDiffersB fh db = false) :
    dbGet (FileHash.Update fh db).2 ("ts_" ++ fh.PathOnDisk) = dbGet db ("ts_" ++ fh.PathOnDisk) := by
  obtain ⟨path, oh, fake⟩ := fh
  simp only [tsDiffersB, decide_eq_false_iff_not, not_not] at htd
  cases oh with
  | none => simp [FileHash.Update, htd]
  | some h =>
    cases hG : dbGet db path with
    | some v =>
      by_cases hvh : v = h
      · subst hvh
        simp [FileHash.Update, hG, htd]
      · have hts : dbGet (dbPut db path h) ("ts_" ++ path) = dbGet db ("ts_" ++ path) :=
          dbGet_dbPut_ne db path h _ (ts_ne_self path)
        simp [FileHash.Update, hG, hvh, hts, htd]
    | none =>
      have hts : dbGet (dbPut db path h) ("ts_" ++ path) = dbGet db ("ts_" ++ path) :=
        dbGet_dbPut_ne db path h _ (ts_ne_self path)
      simp [FileHash.Update, hG, hts, htd]

theorem update_hash_some (fh : FileHash) (db : Db) (h : ByteStr) (hH : fh.Hash = some h) :
    dbGet (FileHash.Update fh db).2 fh.PathOnDisk = some h := by
  obtain ⟨path, oh, fake⟩ := fh
  simp only at hH
  subst hH
  cases hG : dbGet db path with
  | some v =>
    by_cases hvh : v = h
    · subst hvh
      cases hT : dbGet db ("ts_" ++ path) with
      | none =>
        simp [FileHash.Update, hG, hT,
          dbGet_dbPut_ne db _ fake path (Ne.symm (ts_ne_self path))]
      | some w =>
        by_cases hw : w = fake
        · subst hw
          simp [FileHash.Update, hG, hT]
        · simp [FileHash.Update, hG, hT, hw, dbGet_dbPut_ne db _ fake path (Ne.symm (ts_ne_self path)), hG]
    · have hts : dbGet (dbPut db path h) ("ts_" ++ path) = dbGet db ("ts_" ++ path) :=
        dbGet_dbPut_ne db path h _ (ts_ne_self path)
      have hp1 : dbGet (dbPut db path h) path = some h := dbGet_dbPut_self db path h
      cases hT : dbGet db ("ts_" ++ path) with
      | none =>
        simp [FileHash.Update, hG, hvh, hts, hT,
          dbGet_dbPut_ne (dbPut db path h) _ fake path (Ne.symm (ts_ne_self path)), hp1]
      | some w =>
        by_cases hw : w = fake
        · subst hw
          simp [FileHash.Update, hG, hvh, hts, hT, hp1]
        · simp [FileHash.Update, hG, hvh, hts, hT, hw,
            dbGet_dbPut_ne (dbPut db path h) _ fake path (Ne.symm (ts_ne_self path)), hp1]
  | none =>
    have hts : dbGet (dbPut db path h) ("ts_" ++ path) = dbGet db ("ts_" ++ path) :=
      dbGet_dbPut_ne db path h _ (ts_ne_self path)
    have hp1 : dbGet (dbPut db path h) path = some h := dbGet_dbPut_self db path h
    cases hT : dbGet db ("ts_" ++ path) with
    | none =>
      simp [FileHash.Update, hG, hts, hT,
        dbGet_dbPut_ne (dbPut db path h) _ fake path (Ne.symm (ts_ne_self path)), hp1]
    | some w =>
      by_cases hw : w = fake
      · subst hw
        simp [FileHash.Update, hG, hts, hT, hp1]
      · simp [FileHash.Update, hG, hts, hT, hw,
          dbGet_dbPut_ne (dbPut db path h) _ fake path (Ne.symm (ts_ne_self path)), hp1]

theorem update_hash_none (fh : FileHash) (db : Db) (hH : fh.Hash = none) :
    dbGet (FileHash.Update fh db).2 fh.PathOnDisk = dbGet db fh.PathOnDisk := by
  obtain ⟨path, oh, fake⟩ := fh
  simp only at hH
  subst hH
  cases hT : dbGet db ("ts_" ++ path) with
  | none => simp [FileHash.Update, hT, dbGet_dbPut_ne db _ fake path (Ne.symm (ts_ne_self path))]
  | some w =>
    by_cases hw : w = fake
    · subst hw
      simp [FileHash.Update, hT]
    · simp [FileHash.Update, hT, hw, dbGet_dbPut_ne db _ fake path (Ne.symm (ts_ne_self path))]

/-- Claim C3 (amended): `Update` reports "changed" exactly when **both**
components differ from the store — the content-hash component (also
counting an absent record hash as changed) **and** the cheap-fingerprint
component.  Each differing component is written to storage regardless of
the reported result, and each component equal to the stored one is left
untouched: after the call the store holds the record's content hash
(when the record carries one) and, when the cheap fingerprint differed,
the new cheap fingerprint.  In particular an immediately repeated put of
an identical fingerprint writes nothing, returns `false`, and leaves the
store equal. -/
theorem claim_C3_amended (fh : FileHash) (db : Db) :
    (FileHash.Update fh db).1 = (hashDiffersB fh db && tsDiffersB fh db) ∧
    (hashDiffersB fh db = false → tsDiffersB fh db = false →
      FileHash.Update fh db = (false, db)) ∧
    (tsDiffersB fh db = true →
      dbGet (FileHash.Update fh db).2 ("ts_" ++ fh.PathOnDisk) = some fh.FakeHash) ∧
    (tsDiffersB fh db = false →
      dbGet (FileHash.Update fh db).2 ("ts_" ++ fh.PathOnDisk) =
        dbGet db ("ts_" ++ fh.PathOnDisk)) ∧
    (∀ h, fh.Hash = some h → dbGet (FileHash.Update fh db).2 fh.PathOnDisk = some h) ∧
    (fh.Hash = none →
      dbGet (FileHash.Update fh db).2 fh.PathOnDisk = dbGet db fh.PathOnDisk) :=
  ⟨update_fst fh db, update_noop fh db, update_ts_write fh db, update_ts_keep fh db,
   fun h hH => update_hash_some fh db h hH, update_hash_none fh db⟩

/-- Witness for the amended C3 at two concrete inputs: a repeated put of
an identical fingerprint is reported unchanged and leaves the store
untouched; a put whose cheap fingerprint differs writes it. -/
theorem claim_C3_amended_witness :
    hashDiffersB ⟨"/f", some [1], [3]⟩ [("/f", [1]), ("ts_/f", [3])] = false ∧
    tsDiffersB ⟨"/f", some [1], [3]⟩ [("/f", [1]), ("ts_/f", [3])] = false ∧
    FileHash.Update ⟨"/f", some [1], [3]⟩ [("/f", [1]), ("ts_/f", [3])] =
      (false, [("/f", [1]), ("ts_/f", [3])]) ∧
    tsDiffersB ⟨"/f", some [1], [2]⟩ [("/f", [1]), ("ts_/f", [3])] = true ∧
    dbGet (FileHash.Update ⟨"/f", some [1], [2]⟩ [("/f", [1]), ("ts_/f", [3])]).2
      ("ts_" ++ "/f") = some [2] :=
  ⟨by decide, by decide,
   (claim_C3_amended ⟨"/f", some [1], [3]⟩ [("/f", [1]), ("ts_/f", [3])]).2.1
     (by decide) (by decide),
   by decide,
   (claim_C3_amended ⟨"/f", some [1], [2]⟩ [("/f", [1]), ("ts_/f", [3])]).2.2.1
     (by decide)⟩

/-- Trace predicate: is the op the bytes upload? -/
def isAddOp : Op → Bool
  | Op.addBytes _ => true
  | _ => false

/-- Trace predicate: is the op the parent-directory creation? -/
def isMkdirOp : Op → Bool
  | Op.mkdir _ => true
  | _ => false

/-- Trace predicate: is the op the content-id link (`files/cp`)? -/
def isCpOp : Op → Bool
  | Op.cp _ => true
  | _ => false

/-- Trace predicate: is the op the remove of an existing entry? -/
def isRmOp : Op → Bool
  | Op.rmFile _ => true
  | _ => false

/-- Claim C5 counterexample: for a first file under its parent (empty
`localDirs` cache), the trace of `addFile` contains both the mkdir call
and the bytes upload, but the mkdir call does **not** precede the
upload — `AddFile` uploads the file's bytes before it creates the
parent directory. -/
theorem claim_C5_counterexample :
    (∃ op ∈ (watchAddFile "/r/" "r" [] "/r/s/f" false [] true).2, isMkdirOp op = true) ∧
    (∃ op ∈ (watchAddFile "/r/" "r" [] "/r/s/f" false [] true).2, isAddOp op = true) ∧
    ¬ (watchAddFile "/r/" "r" [] "/r/s/f" false [] true).2.findIdx isMkdirOp <
      (watchAddFile "/r/" "r" [] "/r/s/f" false [] true).2.findIdx isAddOp := by
  decide

/-- Claim C5 (amended): for a create/modify intent whose file is the
first placed under its parent directory in the watcher's lifetime, the
file's bytes are uploaded **first**, then the remote
"make directory with parents" call is issued, then — exactly when
force-overwrite is set — the existing entry is removed, and only then is
the content id linked into the mapped remote path; afterwards the
fingerprint is recomputed and stored (remote calls taken to succeed). -/
theorem claim_C5_amended (dir dirName : String) (localDirs : List String)
    (fname : String) (ov : Bool)
    (hfirst : String.intercalate "/" (fname.splitOn "/").dropLast ∉ localDirs) :
    (watchAddFile dir dirName localDirs fname ov [] true).2.findIdx isAddOp <
      (watchAddFile dir dirName localDirs fname ov [] true).2.findIdx isMkdirOp ∧
    (watchAddFile dir dirName localDirs fname ov [] true).2.findIdx isMkdirOp <
      (watchAddFile dir dirName localDirs fname ov [] true).2.findIdx isCpOp ∧
    ((∃ op ∈ (watchAddFile dir dirName localDirs fname ov [] true).2, isRmOp op = true) ↔
      ov = true) ∧
    (ov = true →
      (watchAddFile dir dirName localDirs fname ov [] true).2.findIdx isMkdirOp <
        (watchAddFile dir dirName localDirs fname ov [] true).2.findIdx isRmOp ∧
      (watchAddFile dir dirName localDirs fname ov [] true).2.findIdx isRmOp <
        (watchAddFile dir dirName localDirs fname ov [] true).2.findIdx isCpOp) ∧
    Op.storeFp fname ∈ (watchAddFile dir dirName localDirs fname ov [] true).2 := by
  cases ov <;>
    simp [watchAddFile, hfirst, AddFileTrace, addFileBaseOps, List.findIdx_cons,
      isAddOp, isMkdirOp, isCpOp, isRmOp]

/-- Witness for the amended C5, with force-overwrite set and an empty
parent-directory cache. -/
theorem claim_C5_amended_witness :
    (watchAddFile "/r/" "r" [] "/r/s/f" true [] true).2.findIdx isAddOp <
      (watchAddFile "/r/" "r" [] "/r/s/f" true [] true).2.findIdx isMkdirOp ∧
    (watchAddFile "/r/" "r" [] "/r/s/f" true [] true).2.findIdx isMkdirOp <
      (watchAddFile "/r/" "r" [] "/r/s/f" true [] true).2.findIdx isCpOp ∧
    ((∃ op ∈ (watchAddFile "/r/" "r" [] "/r/s/f" true [] true).2, isRmOp op = true) ↔
      (true : Bool) = true) ∧
    ((true : Bool) = true →
      (watchAddFile "/r/" "r" [] "/r/s/f" true [] true).2.findIdx isMkdirOp <
        (watchAddFile "/r/" "r" [] "/r/s/f" true [] true).2.findIdx isRmOp ∧
      (watchAddFile "/r/" "r" [] "/r/s/f" true [] true).2.findIdx isRmOp <
        (watchAddFile "/r/" "r" [] "/r/s/f" true [] true).2.findIdx isCpOp) ∧
    Op.storeFp "/r/s/f" ∈ (watchAddFile "/r/" "r" [] "/r/s/f" true [] true).2 :=
  claim_C5_amended "/r/" "r" [] "/r/s/f" true (by simp)

/-- Claim C6: with ignore-hidden enabled, the scan-time walk does
exclude hidden-segment paths, and a `Create` event naming a hidden
directory is dropped — but a `Create` event for a **non-hidden**
directory walks its contents with `addDir`, which applies the hidden
test only to directories, not to files: the pre-existing file
`root/cache/.data` inside a freshly created `root/cache` gets a sync
intent, contradicting the claim (and the flag's own description,
"ignore anything prefixed with `.`"). -/
theorem claim_C6_bug :
    processCreateEvent true ["kate-swp", "swp", "part", "crdownload"] "/r/"
        (FsNode.dir "cache" [FsNode.file ".data"]) = ["/r/cache/.data"] ∧
    hiddenName ".data" = true ∧
    processCreateEvent true ["kate-swp", "swp", "part", "crdownload"] "/r/"
        (FsNode.dir ".cache" [FsNode.file "data"]) = [] ∧
    walkCollect true "/r/" (FsNode.dir "cache" [FsNode.file ".data"]) = [] := by
  decide

/-- A concrete content-hash-mode store with records under `/r/s/a` and
an unrelated `/r/t`. -/
def dbC7 : Db := [("/r/s/a", [1]), ("ts_/r/s/a", [2]), ("/r/s/a/b", [3]),
  ("ts_/r/s/a/b", [4]), ("/r/t", [5]), ("ts_/r/t", [6])]

/-- The same directory stored under the cheap, don't-hash strategy:
timestamp keys only (db.go:37-45 writes the plain key only when
`fh.Hash != nil`). -/
def dbC7cheap : Db := [("ts_/r/s/a", [2]), ("ts_/r/s/a/b", [4])]

/-- Claim C7 counterexample: on a cheap-strategy store, a remove event
for a path that is truly gone leaves the store **unchanged** — the
deletion loop iterates plain keys only, and cheap-mode records have
none — so the record for the removed path (and for everything under it)
survives, though the claim says those records are deleted. -/
theorem claim_C7_counterexample :
    hasRecord dbC7cheap "/r/s/a" = true ∧
    (processRemoveEvent "/r/" "r" [] dbC7cheap "/r/s/a" false true).1.2 = dbC7cheap ∧
    hasRecord (processRemoveEvent "/r/" "r" [] dbC7cheap "/r/s/a" false true).1.2
      "/r/s/a" = true := by
  decide

/-- Claim C7 (amended): a remove/rename notification is re-stat'd first;
when the path still exists the event is dropped with no remote removal,
no watch unregistration and no fingerprint deletion; when the path is
gone, the watch is unregistered, a remote removal at the mapped path is
issued, and the store's records for the path and everything under it are
deleted **for every record that carries its plain content-hash key** —
records stored under the cheap, don't-hash strategy (a timestamp key
alone) are left untouched (`statExists` is the stat outcome). -/
theorem claim_C7_amended (dir dirName : String) (localDirs : List String)
    (db : Db) (name : String) (hname : strPfx "/" name = true) :
    processRemoveEvent dir dirName localDirs db name true true = ((localDirs, db), []) ∧
    (processRemoveEvent dir dirName localDirs db name false true).2 =
      [Op.unwatch name, Op.rmFile (dirName ++ "/" ++ name.drop dir.length)] ∧
    (∀ q, strPfx name q = true → q ∈ db.map Prod.fst →
      hasRecord (processRemoveEvent dir dirName localDirs db name false true).1.2 q = false) ∧
    (∀ q, q ∉ db.map Prod.fst →
      dbGet (processRemoveEvent dir dirName localDirs db name false true).1.2 ("ts_" ++ q) =
        dbGet db ("ts_" ++ q)) := by
  have hdel : (processRemoveEvent dir dirName localDirs db name false true).1.2 =
      FileHash.Delete name db := by
    simp [processRemoveEvent]
  refine ⟨by simp [processRemoveEvent], by simp [processRemoveEvent], ?_, ?_⟩
  · intro q hq hqk
    rw [hdel, hasRecord, dbGet_Delete_of_pfx db name q hq,
      dbGet_Delete_ts_none_of_mem db name q hq hqk]
    rfl
  · intro q hqk
    rw [hdel]
    exact dbGet_Delete_ts_keep_of_not_mem db name q hname hqk

/-- Witness for the amended C7 on concrete stores: a dropped event
changes nothing; a real removal unwatches, removes `r/s/a` remotely and
clears the content-hash-mode records of `/r/s/a/b`; on the
cheap-strategy store the timestamp-only record of `/r/s/a/b` is left
untouched. -/
theorem claim_C7_amended_witness :
    processRemoveEvent "/r/" "r" ["/r/s"] dbC7 "/r/s/a" true true = ((["/r/s"], dbC7), []) ∧
    (processRemoveEvent "/r/" "r" ["/r/s"] dbC7 "/r/s/a" false true).2 =
      [Op.unwatch "/r/s/a", Op.rmFile ("r" ++ "/" ++ ("/r/s/a").drop ("/r/" : String).length)] ∧
    hasRecord (processRemoveEvent "/r/" "r" ["/r/s"] dbC7 "/r/s/a" false true).1.2
      "/r/s/a/b" = false ∧
    dbGet (processRemoveEvent "/r/" "r" [] dbC7cheap "/r/s/a" false true).1.2
      ("ts_" ++ "/r/s/a/b") = dbGet dbC7cheap ("ts_" ++ "/r/s/a/b") := by
  refine ⟨(claim_C7_amended "/r/" "r" ["/r/s"] dbC7 "/r/s/a" (by decide)).1,
          (claim_C7_amended "/r/" "r" ["/r/s"] dbC7 "/r/s/a" (by decide)).2.1,
          (claim_C7_amended "/r/" "r" ["/r/s"] dbC7 "/r/s/a" (by decide)).2.2.1
            "/r/s/a/b" (by decide) (by decide),
          (claim_C7_amended "/r/" "r" [] dbC7cheap "/r/s/a" (by decide)).2.2.2
            "/r/s/a/b" (by decide)⟩

theorem checkDirs_ok (dks : List DirCfg) (h : ∀ dk ∈ dks, dk.Dir ≠ "") :
    ∃ ds, checkDirs dks = Except.ok ds := by
  induction dks with
  | nil => exact ⟨[], rfl⟩
  | cons dk rest ih =>
    obtain ⟨ds, hds⟩ := ih (fun d hd => h d (List.mem_cons_of_mem _ hd))
    refine ⟨{ dk with
        Dir := if dk.Dir.data.getLastD ' ' == '/' then dk.Dir
               else dk.Dir ++ "/" } :: ds, ?_⟩
    rw [checkDirs, if_neg (h dk (List.mem_cons_self _ _)), hds]
    rfl

/-- Claim C8: the process exits on each startup validation failure — an
empty configured directory list, a configured durable store that fails
to open, an unreachable remote endpoint — while the steady-state loop's
model is a total function: whatever results the remote returns (any
oracle, including every failure), one pass processes every directory
and produces a normal result (its callees — `GetFileCID`, `UpdatePin`,
`Pin`, `UpdatePinEstuary`, `Publish` — only log their failures, so their
models return values rather than aborting). -/
theorem claim_C8 :
    (∀ dbPath dbOk epOk, ProcessFlagsChecks [] dbPath dbOk epOk =
        Except.error StartupError.emptyDirs) ∧
    (∀ dks dbPath epOk, dks ≠ [] → (∀ dk ∈ dks, dk.Dir ≠ "") → dbPath ≠ "" →
        ProcessFlagsChecks dks dbPath false epOk =
          Except.error StartupError.dbOpenFailed) ∧
    (∀ dks dbPath dbOk, dks ≠ [] → (∀ dk ∈ dks, dk.Dir ≠ "") →
        (dbPath = "" ∨ dbOk = true) →
        ProcessFlagsChecks dks dbPath dbOk false =
          Except.error StartupError.endpointUnreachable) ∧
    (∀ dks oracle, ((watchDogPass dks oracle).1).length = dks.length) := by
  refine ⟨?_, ?_, ?_, ?_⟩
  · intro dbPath dbOk epOk
    rfl
  · intro dks dbPath epOk h1 h2 h3
    obtain ⟨ds, hds⟩ := checkDirs_ok dks h2
    rw [ProcessFlagsChecks, if_neg (by simp [h1])]
    rw [hds]
    show (if (dbPath ≠ "" && !false : Bool) then
        Except.error StartupError.dbOpenFailed
      else if (!epOk : Bool) then Except.error StartupError.endpointUnreachable
      else Except.ok ds) = Except.error StartupError.dbOpenFailed
    simp [h3]
  · intro dks dbPath dbOk h1 h2 h3
    obtain ⟨ds, hds⟩ := checkDirs_ok dks h2
    rw [ProcessFlagsChecks, if_neg (by simp [h1])]
    rw [hds]
    show (if (dbPath ≠ "" && !dbOk : Bool) then
        Except.error StartupError.dbOpenFailed
      else if (!(false : Bool) : Bool) then Except.error StartupError.endpointUnreachable
      else Except.ok ds) = Except.error StartupError.endpointUnreachable
    rcases h3 with h3 | h3 <;> simp [h3]
  · intro dks oracle
    induction dks generalizing oracle with
    | nil => rfl
    | cons dk rest ih => simp [watchDogPass, ih]

/-- Witness for C8: each fatal branch observed concretely, and a pass
over one directory with a failing `pin/update` still processes it. -/
theorem claim_C8_witness :
    ProcessFlagsChecks [] "" true true = Except.error StartupError.emptyDirs ∧
    ProcessFlagsChecks [⟨"i", "/d"⟩] "/db" false true = Except.error StartupError.dbOpenFailed ∧
    ProcessFlagsChecks [⟨"i", "/d"⟩] "" true false = Except.error StartupError.endpointUnreachable ∧
    ((watchDogPass [⟨"id1", "/r/", false, false, true, false, "X", "r"⟩]
        [("Y", [PinRes.badBlock, PinRes.otherErr])]).1).length = 1 :=
  ⟨claim_C8.1 "" true true,
   claim_C8.2.1 [⟨"i", "/d"⟩] "/db" true (by decide) (by decide) (by decide),
   claim_C8.2.2.1 [⟨"i", "/d"⟩] "" true (by decide) (by decide) (Or.inl rfl),
   claim_C8.2.2.2 [⟨"id1", "/r/", false, false, true, false, "X", "r"⟩]
     [("Y", [PinRes.badBlock, PinRes.otherErr])]⟩
